import Mathlib

/-!
Verification development for a multi-agent retail rostering system.

The Python source is shallowly embedded: pure functions become Lean
functions, mutation of the shared `Schedule` / `ComplianceResult` objects
becomes explicit state passing, Python floats become exact rationals, and
calendar dates / datetimes become integer day numbers / minute counts.
Each section names the source file and symbol it embeds.
-/

namespace MAS

/-- Calendar dates are modelled as integer day numbers; consecutive dates
differ by 1, exactly matching the `timedelta(days=1)` arithmetic of the
source (`datetime.date` ordering and subtraction map to integer ordering
and subtraction). -/
abbrev Date := Int

/-! ## models/employee.py -/

/-- `Station` enum from models/employee.py. -/
inductive Station
  | KITCHEN
  | COUNTER
  | MCCAFE
  | DESSERT
deriving DecidableEq, Repr

/-- `EmployeeType` enum from models/employee.py. -/
inductive EmployeeType
  | FULL_TIME
  | PART_TIME
  | CASUAL
deriving DecidableEq, Repr

/-- `Employee` dataclass from models/employee.py.  The availability dict is
modelled as an association list from date to the list of available shift
codes; `current_week_hours` is omitted (never used by the verified
operations). -/
structure Employee where
  id : String
  name : String
  employee_type : EmployeeType
  primary_station : Station
  availability : List (Date × List String) := []
  skills : List Station := []
  weekly_hours_target : ℚ × ℚ := (0, 0)
deriving DecidableEq, Repr

/-- `Employee._get_hours_target` from models/employee.py (the `.get`
default `(0, 40)` is unreachable because the dict covers the whole enum). -/
def hoursTargetFor : EmployeeType → ℚ × ℚ
  | .FULL_TIME => (35, 38)
  | .PART_TIME => (20, 32)
  | .CASUAL => (8, 24)

/-- `Employee.__post_init__` from models/employee.py: the primary station
is added to the skill set and the weekly hours target is derived from the
employment category when left at the `(0, 0)` default. -/
def Employee.make (id name : String) (et : EmployeeType) (ps : Station)
    (availability : List (Date × List String)) (skills : List Station) : Employee :=
  { id := id, name := name, employee_type := et, primary_station := ps,
    availability := availability,
    skills := if skills.contains ps then skills else ps :: skills,
    weekly_hours_target := hoursTargetFor et }

/-- Python dict lookup `self.availability[target_date]` guarded by a
`target_date not in self.availability` check; association-list lookup. -/
def lookupAvailability (av : List (Date × List String)) (d : Date) : Option (List String) :=
  (av.find? (fun p => p.1 == d)).map (fun p => p.2)

/-- `Employee.is_available` from models/employee.py. -/
def Employee.isAvailable (e : Employee) (d : Date) (code : String) : Bool :=
  match lookupAvailability e.availability d with
  | none => false
  | some shifts =>
      if shifts.contains "/" || shifts.isEmpty then false
      else shifts.contains code

/-- `Employee.can_work_station` from models/employee.py. -/
def Employee.canWorkStation (e : Employee) (st : Station) : Bool :=
  e.skills.contains st

/-! ## models/shift.py -/

/-- `ShiftType` enum from models/shift.py. -/
inductive ShiftType
  | FIRST_HALF
  | SECOND_HALF
  | FULL_DAY
  | DAY_SHIFT
  | SHIFT_CHANGE
  | MEETING
deriving DecidableEq, Repr

/-- `ShiftType.from_code` from models/shift.py.  Callers in the verified
code paths pass canonical upper-case codes, so the `.upper().strip()`
normalisation is elided. -/
def ShiftType.fromCode (code : String) : Option ShiftType :=
  if code = "1F" then some .FIRST_HALF
  else if code = "2F" then some .SECOND_HALF
  else if code = "3F" then some .FULL_DAY
  else if code = "S" then some .DAY_SHIFT
  else if code = "SC" then some .SHIFT_CHANGE
  else if code = "M" then some .MEETING
  else none

/-- `Shift` dataclass from models/shift.py.  Times of day are minutes from
midnight; `hours` is the rational shift length. -/
structure Shift where
  shift_type : ShiftType
  date : Date
  start_time : Nat
  end_time : Nat
  hours : ℚ
  break_minutes : Nat := 30
deriving DecidableEq, Repr

/-- The `shift_configs` table inside `Shift.from_code`
(start minutes, end minutes, hours). -/
def shiftConfigs (code : String) : Option (Nat × Nat × ℚ) :=
  if code = "1F" then some (390, 930, 9)
  else if code = "2F" then some (840, 1380, 9)
  else if code = "3F" then some (480, 1200, 12)
  else if code = "S" then some (390, 900, 17/2)
  else if code = "SC" then some (660, 1200, 9)
  else if code = "M" then some (540, 1020, 8)
  else none

/-- `Shift.from_code` from models/shift.py. -/
def Shift.fromCode (code : String) (shiftDate : Date) : Option Shift :=
  if code = "/" ∨ code = "NA" ∨ code = "" then none
  else
    match shiftConfigs code, ShiftType.fromCode code with
    | some (s, e, h), some t =>
        some { shift_type := t, date := shiftDate, start_time := s, end_time := e,
               hours := h, break_minutes := if h > 5 then 30 else 0 }
    | _, _ => none

/-- `Shift.get_end_datetime`: absolute minute count of the shift's end. -/
def Shift.endDatetime (s : Shift) : Int := s.date * 1440 + s.end_time

/-- `Shift.get_start_datetime`: absolute minute count of the shift's start. -/
def Shift.startDatetime (s : Shift) : Int := s.date * 1440 + s.start_time

/-- `Shift.hours_until_next` from models/shift.py: the gap between this
shift's end and the next shift's start, in hours (`total_seconds()/3600`
becomes minutes divided by 60). -/
def Shift.hoursUntilNext (s next : Shift) : ℚ :=
  ((next.startDatetime - s.endDatetime : Int) : ℚ) / 60

/-! ## models/schedule.py -/

/-- `Assignment` dataclass from models/schedule.py. -/
structure Assignment where
  employee : Employee
  shift : Shift
  station : Station
  is_locked : Bool := false
  notes : String := ""
deriving DecidableEq, Repr

/-- The tuple of fields compared by the dataclass-generated
`Assignment.__eq__`: all `Assignment` fields, with the employee compared by
`Employee.__eq__`, which compares ids only. -/
def akey (a : Assignment) : String × Shift × Station × Bool × String :=
  (a.employee.id, a.shift, a.station, a.is_locked, a.notes)

/-- Python `==` on assignments. -/
def aeq (a b : Assignment) : Bool := akey a == akey b

/-- Number of occurrences of `a` in a list under Python `==`
(`list.count`). -/
def countA (a : Assignment) : List Assignment → Nat
  | [] => 0
  | b :: t => (if aeq a b then 1 else 0) + countA a t

/-- Python `a in l` membership test. -/
def containsA (l : List Assignment) (a : Assignment) : Bool :=
  l.any (fun b => aeq b a)

/-- Python `list.remove`: drop the first element equal to `a`.  In the
source a missing element raises `ValueError`; the verified call sites only
remove after a successful membership test, where the element is present. -/
def removeFirstA (l : List Assignment) (a : Assignment) : List Assignment :=
  match l with
  | [] => []
  | b :: t => if aeq b a then t else b :: removeFirstA t a

/-- `Schedule` dataclass from models/schedule.py.  The three
`defaultdict(list)` indexes are modelled as total functions returning `[]`
for absent keys, which is exactly the defaultdict read behaviour. -/
structure Schedule where
  start_date : Date
  end_date : Date
  assignments : List Assignment := []
  store_id : String := "Store_1"
  by_date : Date → List Assignment := fun _ => []
  by_employee : String → List Assignment := fun _ => []
  by_station : Station → List Assignment := fun _ => []

/-- Fresh schedule as constructed by `Schedule(start_date=..., end_date=...,
store_id=...)`. -/
def Schedule.fresh (startDate endDate : Date) (storeId : String) : Schedule :=
  { start_date := startDate, end_date := endDate, store_id := storeId }

/-- `Schedule.add_assignment` from models/schedule.py. -/
def Schedule.addAssignment (s : Schedule) (a : Assignment) : Schedule :=
  { s with
    assignments := s.assignments ++ [a],
    by_date := fun d => if d = a.shift.date then s.by_date d ++ [a] else s.by_date d,
    by_employee := fun i => if i = a.employee.id then s.by_employee i ++ [a] else s.by_employee i,
    by_station := fun st => if st = a.station then s.by_station st ++ [a] else s.by_station st }

/-- `Schedule.remove_assignment` from models/schedule.py: refuses locked
assignments, otherwise removes the first equal assignment from the list and
from each index bucket, returning whether a removal happened. -/
def Schedule.removeAssignment (s : Schedule) (a : Assignment) : Schedule × Bool :=
  if a.is_locked then (s, false)
  else if containsA s.assignments a then
    ({ s with
       assignments := removeFirstA s.assignments a,
       by_date := fun d => if d = a.shift.date then removeFirstA (s.by_date d) a else s.by_date d,
       by_employee := fun i => if i = a.employee.id then removeFirstA (s.by_employee i) a else s.by_employee i,
       by_station := fun st => if st = a.station then removeFirstA (s.by_station st) a else s.by_station st },
     true)
  else (s, false)

/-- `Schedule.get_assignments_by_employee`. -/
def Schedule.assignmentsByEmployee (s : Schedule) (empId : String) : List Assignment :=
  s.by_employee empId

/-- `Schedule.is_employee_assigned`. -/
def Schedule.isEmployeeAssigned (s : Schedule) (empId : String) (d : Date) : Bool :=
  (s.assignmentsByEmployee empId).any (fun a => a.shift.date == d)

/-- Week index used by both the staff matcher and the compliance validator
(`_get_week_number`): floor (Python `//`) of the day offset by 7. -/
def weekNumber (startDate d : Date) : Int := Int.fdiv (d - startDate) 7

/-- Total shift hours of one employee in one week of the schedule period,
the quantity bounded by the staff matcher's feasibility gate. -/
def Schedule.weekHours (s : Schedule) (empId : String) (w : Int) : ℚ :=
  ((s.assignments.filter
      (fun a => a.employee.id == empId && weekNumber s.start_date a.shift.date == w)).map
    (fun a => a.shift.hours)).sum

/-! ## models/constraints.py -/

/-- `ConstraintType` enum from models/constraints.py. -/
inductive ConstraintType
  | LEGAL
  | AVAILABILITY
  | SKILL
  | HOURS_MAX
  | REST_PERIOD
  | CONSECUTIVE_DAYS
  | MIN_STAFF
  | PREFERENCE
  | HOURS_MIN
  | COST
  | COVERAGE
  | FAIRNESS
deriving DecidableEq, Repr

/-- The violation `details` map is `Dict[str, Any]` in the source; it is
modelled as a record of the keys that the verified operations
(`_calculate_soft_penalty`, `_is_informational_warning`,
`escalate_to_manager`) and the verified checks read or write.  An absent key
is `none`. -/
structure ViolationDetails where
  alert_type : Option String := none
  gini_coefficient : Option ℚ := none
  current_coverage : Option Int := none
  required_coverage : Option Int := none
  peak_type : Option String := none
  escalation_reason : Option String := none
  requires_manager_approval : Bool := false
  excess_hours : Option ℚ := none
  shortfall : Option ℚ := none
  current_hours : Option ℚ := none
  rest_hours : Option ℚ := none
deriving DecidableEq, Repr

/-- `Violation` dataclass from models/constraints.py.  Description strings
carry the stable textual parts of the source's f-strings; interpolated
numeric renderings (`{hours:.1f}` etc.) are elided, and no verified claim
reads them. -/
structure Violation where
  constraint_type : ConstraintType
  severity : Nat
  description : String
  affected_entity : String
  affected_date : Option Date := none
  details : ViolationDetails := {}
  suggestions : List String := []
deriving DecidableEq, Repr

/-- `Violation.is_hard_constraint` from models/constraints.py. -/
def Violation.isHardConstraint (v : Violation) : Bool :=
  match v.constraint_type with
  | .LEGAL | .AVAILABILITY | .SKILL | .HOURS_MAX
  | .REST_PERIOD | .CONSECUTIVE_DAYS | .MIN_STAFF => true
  | _ => false

/-- `ComplianceResult` dataclass from models/constraints.py (`checked_at`
and the fairness-metrics map are carried by the source but read by no
verified operation; they are omitted). -/
structure ComplianceResult where
  is_compliant : Bool
  violations : List Violation := []
  warnings : List Violation := []
  pending_approvals : List Violation := []
  score : ℚ := 100
deriving DecidableEq, Repr

/-- `ComplianceResult._is_informational_warning` from models/constraints.py. -/
def isInformationalWarning (v : Violation) : Bool :=
  if v.details.alert_type = some "approaching_limit" then true
  else if v.constraint_type = ConstraintType.FAIRNESS ∧
      v.details.gini_coefficient.getD 0 < 2/5 then true
  else if v.constraint_type = ConstraintType.COVERAGE ∧
      v.details.required_coverage.getD 0 - v.details.current_coverage.getD 0 ≤ 1 ∧
      v.details.peak_type = none then true
  else false

/-- The per-type weight table inside `_calculate_soft_penalty`
(`weights.get(type, 0.5)`). -/
def softWeight : ConstraintType → ℚ
  | .COVERAGE => 8/10
  | .HOURS_MIN => 1/2
  | .FAIRNESS => 3/10
  | .PREFERENCE => 1/5
  | .COST => 2/5
  | _ => 1/2

/-- `ComplianceResult._calculate_soft_penalty` from models/constraints.py:
informational warnings cost 0, otherwise `min(severity * 0.05 * weight, 0.5)`. -/
def calculateSoftPenalty (v : Violation) : ℚ :=
  if isInformationalWarning v then 0
  else min ((v.severity : ℚ) * (5/100) * softWeight v.constraint_type) (1/2)

/-- `ComplianceResult.add_violation` from models/constraints.py. -/
def ComplianceResult.addViolation (r : ComplianceResult) (v : Violation) : ComplianceResult :=
  if v.isHardConstraint then
    { r with violations := r.violations ++ [v],
             is_compliant := false,
             score := max 0 (r.score - (v.severity : ℚ) * 2) }
  else
    { r with warnings := r.warnings ++ [v],
             score := max 0 (r.score - calculateSoftPenalty v) }

/-- The suggestion marker prepended by `escalate_to_manager`
(`f"⚠️ MANAGER APPROVAL REQUIRED: {reason}"`). -/
def escalationMarker : String := "⚠️ MANAGER APPROVAL REQUIRED: "

/-- `ComplianceResult.escalate_to_manager` from models/constraints.py:
remove the first equal violation from the hard list, record the escalation
reason and approval flag on it, push the marked suggestion at index 0,
append it to `pending_approvals`, recompute `is_compliant` as "no hard
violations remain", restore the `severity * 2` hard penalty and apply a
softer `severity * 0.5` one. -/
def ComplianceResult.escalateToManager (r : ComplianceResult) (v : Violation)
    (reason : String) : ComplianceResult :=
  if v ∈ r.violations then
    let v' : Violation :=
      { v with
        details := { v.details with
                     escalation_reason := some reason,
                     requires_manager_approval := true },
        suggestions := (escalationMarker ++ reason) :: v.suggestions }
    let violations' := r.violations.erase v
    let score1 := min 100 (r.score + (v.severity : ℚ) * 2)
    { r with violations := violations',
             pending_approvals := r.pending_approvals ++ [v'],
             is_compliant := violations'.isEmpty,
             score := max 0 (score1 - (v.severity : ℚ) * (1/2)) }
  else r

/-! ## List helpers shared by the embedded agents

Python dict iteration order is insertion order; the validator's
`defaultdict` groupings therefore visit employees (and weeks) in order of
first appearance.  `dedupFirst` reproduces that order.  `insertionSortBy`
is a stable ascending sort (Python `sorted`/`list.sort` are stable): an
element is inserted after all existing elements it is not strictly below. -/

def dedupFirstAux {α : Type} [DecidableEq α] (seen : List α) : List α → List α
  | [] => []
  | x :: t =>
      if seen.contains x then dedupFirstAux seen t
      else x :: dedupFirstAux (x :: seen) t

/-- First-occurrence deduplication in input order (Python dict key order). -/
def dedupFirst {α : Type} [DecidableEq α] (l : List α) : List α :=
  dedupFirstAux [] l

/-- Insert `x` before the first element strictly greater than it (stable). -/
def insertOrdered {α : Type} (lt : α → α → Bool) (x : α) : List α → List α
  | [] => [x]
  | y :: t => if lt x y then x :: y :: t else y :: insertOrdered lt x t

/-- Stable ascending sort by the strict comparison `lt`. -/
def insertionSortBy {α : Type} (lt : α → α → Bool) (l : List α) : List α :=
  l.foldl (fun acc x => insertOrdered lt x acc) []

/-- Consecutive pairs of a list (the validator's
`for i in range(len(xs) - 1): (xs[i], xs[i+1])` loop). -/
def adjacentPairs {α : Type} : List α → List (α × α)
  | a :: b :: t => (a, b) :: adjacentPairs (b :: t)
  | _ => []

/-- `self.employees = {e.id: e for e in employees}` followed by
`self.employees.get(emp_id)`: lookup by id (ids are unique in the loaded
data; on duplicates the dict keeps the last, the claims quantify over
duplicate-free ids). -/
def lookupEmployee (emps : List Employee) (empId : String) : Option Employee :=
  emps.find? (fun e => e.id == empId)

/-! ## agents/compliance_validator.py -/

/-- The `hours_limits` entry of `ComplianceValidatorAgent.params`
(`self.params["hours_limits"].get(employee.employee_type, (0, 40))`; the
dict covers the whole enum so the default is unreachable). -/
def validatorHoursLimits : EmployeeType → ℚ × ℚ
  | .FULL_TIME => (35, 38)
  | .PART_TIME => (20, 32)
  | .CASUAL => (8, 24)

/-- The body of the per-week loop of
`ComplianceValidatorAgent._check_hours_compliance`: at most one violation
per employee per week.  `hours > max` gives the severity-9 hard
`HOURS_MAX` violation with `excess_hours`; otherwise `hours < min` gives
the severity-4 soft `HOURS_MIN` warning; otherwise `hours ≥ 0.85 * max`
gives the severity-2 approaching-limit alert, which the source also types
as `HOURS_MAX`. -/
def weekHoursViolation (e : Employee) (hours : ℚ) : Option Violation :=
  let limits := validatorHoursLimits e.employee_type
  let minHours := limits.1
  let maxHours := limits.2
  if hours > maxHours then
    some { constraint_type := .HOURS_MAX, severity := 9,
           description := e.name ++ " exceeds max hours",
           affected_entity := e.id,
           details := { current_hours := some hours,
                        excess_hours := some (hours - maxHours) },
           suggestions := ["Remove excess hours from schedule",
                           "Reassign some shifts to other employees"] }
  else if hours < minHours then
    some { constraint_type := .HOURS_MIN, severity := 4,
           description := e.name ++ " below target hours",
           affected_entity := e.id,
           details := { current_hours := some hours,
                        shortfall := some (minHours - hours) },
           suggestions := ["Add more hours"] }
  else if hours ≥ maxHours * (85/100) then
    some { constraint_type := .HOURS_MAX, severity := 2,
           description := e.name ++ " approaching max hours",
           affected_entity := e.id,
           details := { current_hours := some hours,
                        alert_type := some "approaching_limit" },
           suggestions := ["Avoid assigning additional shifts this week"] }
  else none

/-- `ComplianceValidatorAgent._check_hours_compliance`: aggregate each
employee's hours per week of the schedule period, then emit the per-week
violation; employees and weeks are visited in order of first appearance in
the assignment list, employees missing from the roster are skipped. -/
def checkHoursCompliance (s : Schedule) (emps : List Employee) : List Violation :=
  let empIds := dedupFirst (s.assignments.map (fun a => a.employee.id))
  empIds.flatMap (fun eid =>
    match lookupEmployee emps eid with
    | none => []
    | some e =>
        let mine := s.assignments.filter (fun a => a.employee.id == eid)
        let weeks := dedupFirst (mine.map (fun a => weekNumber s.start_date a.shift.date))
        weeks.flatMap (fun w =>
          let hours :=
            ((mine.filter (fun a => weekNumber s.start_date a.shift.date == w)).map
              (fun a => a.shift.hours)).sum
          (weekHoursViolation e hours).toList))

/-- The sort key of `_check_rest_period_compliance`
(`key=lambda a: (a.shift.date, a.shift.start_time)`), as a strict
lexicographic comparison for the stable sort. -/
def restSortLt (a b : Assignment) : Bool :=
  decide (a.shift.date < b.shift.date ∨
    (a.shift.date = b.shift.date ∧ a.shift.start_time < b.shift.start_time))

/-- `min_rest_hours` from `ComplianceValidatorAgent.params`. -/
def minRestHours : ℚ := 10

/-- The per-employee part of
`ComplianceValidatorAgent._check_rest_period_compliance`: sort the
employee's assignments by (date, start time) and flag every adjacent pair
whose `hours_until_next` gap is below 10 hours with a severity-10 hard
violation dated at the later shift. -/
def restViolationsFor (e : Employee) (l : List Assignment) : List Violation :=
  let sortedAssignments := insertionSortBy restSortLt l
  (adjacentPairs sortedAssignments).filterMap (fun p =>
    let restHours := p.1.shift.hoursUntilNext p.2.shift
    if restHours < minRestHours then
      some { constraint_type := .REST_PERIOD, severity := 10,
             description := e.name ++ " has insufficient rest",
             affected_entity := e.id,
             affected_date := some p.2.shift.date,
             details := { rest_hours := some restHours },
             suggestions := ["Change the later shift to a later start time",
                             "Reassign one of the shifts to another employee"] }
    else none)

/-- `ComplianceValidatorAgent._check_rest_period_compliance`: group
assignments by employee (insertion order), skip employees missing from the
roster, and run the per-employee adjacent-pair check. -/
def checkRestPeriodCompliance (s : Schedule) (emps : List Employee) : List Violation :=
  let empIds := dedupFirst (s.assignments.map (fun a => a.employee.id))
  empIds.flatMap (fun eid =>
    match lookupEmployee emps eid with
    | none => []
    | some e => restViolationsFor e (s.assignments.filter (fun a => a.employee.id == eid)))

/-- `ComplianceValidatorAgent._calculate_gini`: sort ascending, compute
`G = 2 * Σ((i+1) * hᵢ) / (n * Σhᵢ) − (n+1)/n` over 1-indexed ranks, return
0 on an empty or zero-sum list, clamp to [0, 1]. -/
def calculateGini (values : List ℚ) : ℚ :=
  if values.isEmpty then 0
  else
    let sortedValues := insertionSortBy (fun a b => decide (a < b)) values
    let n : ℚ := sortedValues.length
    let cumsum := (sortedValues.enum.map (fun p => ((p.1 : ℚ) + 1) * p.2)).sum
    let total := sortedValues.sum
    if total = 0 then 0
    else max 0 (min 1 ((2 * cumsum) / (n * total) - (n + 1) / n))

/-! ## communication/message.py and communication/message_bus.py -/

/-- `MessageType` enum from communication/message.py. -/
inductive MessageType
  | REQUEST
  | RESPONSE
  | BROADCAST
  | DATA
  | SCHEDULE
  | VALIDATION_REQUEST
  | VALIDATION_RESULT
  | VIOLATION
  | CONFLICT
  | RESOLUTION_OPTIONS
  | RESOLUTION_SELECTED
  | STATUS
  | ERROR
  | COMPLETE
  | APPROVAL_REQUEST
  | APPROVAL_RESPONSE
  | NEGOTIATE_PROPOSE
  | NEGOTIATE_COUNTER
  | NEGOTIATE_ACCEPT
  | NEGOTIATE_REJECT
  | BID_REQUEST
  | BID_SUBMIT
  | BID_RESULT
deriving DecidableEq, Repr

/-- `Message` dataclass from communication/message.py.  The payload is
opaque to the bus and modelled as a string; the auto-generated correlation
id and creation timestamp are ordinary fields here (their generation is
outside the routing behaviour under verification). -/
structure Message where
  msg_type : MessageType
  sender : String
  receiver : Option String := none
  content : String := ""
  correlation_id : String := ""
  timestamp : Int := 0
deriving DecidableEq, Repr

/-- `MessageBus` from communication/message_bus.py.  `subscribers` is a
Python dict from agent name to handler callback: an association list in
insertion order (re-registration overwrites in place, preserving the
original position, as dicts do).  Handlers are opaque values of type `H`;
`send` returns the handler invocations it performs, in order — the source
calls each handler inline before `send` returns, so the invocation list is
exactly the synchronously completed deliveries. -/
structure MessageBus (H : Type) where
  subscribers : List (String × H) := []
  message_history : List Message := []

/-- `MessageBus.register`: store the handler under the agent name,
overwriting silently (dict keeps the first-insertion position). -/
def MessageBus.register {H : Type} (bus : MessageBus H) (agentName : String)
    (handler : H) : MessageBus H :=
  if bus.subscribers.any (fun p => p.1 == agentName) then
    { bus with subscribers :=
        bus.subscribers.map (fun p => if p.1 == agentName then (agentName, handler) else p) }
  else
    { bus with subscribers := bus.subscribers ++ [(agentName, handler)] }

/-- `MessageBus.unregister`: remove the entry, no-op if absent. -/
def MessageBus.unregister {H : Type} (bus : MessageBus H) (agentName : String) : MessageBus H :=
  { bus with subscribers := bus.subscribers.filter (fun p => p.1 ≠ agentName) }

/-- `MessageBus.send` from communication/message_bus.py: append to history
unconditionally, then route.  No `receiver` ⇒ invoke every registered
handler except the sender's own, in registration order; a registered
`receiver` ⇒ invoke exactly that handler; an unregistered `receiver` ⇒
print a warning and deliver nothing (no error).  The returned list holds
the handler invocations `send` performed before returning. -/
def MessageBus.send {H : Type} (bus : MessageBus H) (m : Message) :
    MessageBus H × List (H × Message) :=
  let bus' := { bus with message_history := bus.message_history ++ [m] }
  match m.receiver with
  | none =>
      (bus', (bus.subscribers.filter (fun p => p.1 ≠ m.sender)).map (fun p => (p.2, m)))
  | some r =>
      match bus.subscribers.find? (fun p => p.1 == r) with
      | some p => (bus', [(p.2, m)])
      | none => (bus', [])

/-! ## config.py -/

/-- `RateLimiter` from config.py: a sliding-window counter over call
timestamps.  Wall-clock time (`time.time()`, seconds) is passed explicitly
as a rational `now`. -/
structure RateLimiter where
  max_calls : Nat := 10
  period_seconds : ℚ := 60
  calls : List ℚ := []
deriving DecidableEq, Repr

/-- `RateLimiter.acquire`: prune timestamps outside the window (the pruned
list is written back), refuse when the window is full without recording the
attempt, otherwise record `now` and allow. -/
def RateLimiter.acquire (rl : RateLimiter) (now : ℚ) : RateLimiter × Bool :=
  if rl.max_calls ≤ (rl.calls.filter (fun t => decide (now - t < rl.period_seconds))).length then
    ({ rl with calls := rl.calls.filter (fun t => decide (now - t < rl.period_seconds)) }, false)
  else
    ({ rl with calls := rl.calls.filter (fun t => decide (now - t < rl.period_seconds)) ++ [now] },
     true)

/-- `RateLimiter.remaining`: prune, then report the headroom
`max(0, max_calls - len(calls))`. -/
def RateLimiter.remaining (rl : RateLimiter) (now : ℚ) : RateLimiter × Nat :=
  ({ rl with calls := rl.calls.filter (fun t => decide (now - t < rl.period_seconds)) },
   rl.max_calls - (rl.calls.filter (fun t => decide (now - t < rl.period_seconds))).length)

/-! ## agents/conflict_resolver.py — applying a resolution -/

/-- One structured change of a `Resolution` (`resolution.changes` entries,
dicts keyed by `"type"`).  The generators always populate the payload
fields tested by the `if all([...])` guards, so each kind carries its
payload directly. -/
inductive ResolutionChange
  | swap (assignment : Assignment) (new_employee : Employee)
  | remove (assignment : Assignment)
  | add (employee : Employee) (date : Date) (shift_code : String) (station : Station)
  | modify_station (assignment : Assignment) (new_station : Station)

/-- One step of `ConflictResolverAgent._apply_resolution`'s change loop.
A `swap` removes the old assignment — ignoring the returned success flag —
and adds a fresh assignment for the new employee with the same shift and
station; `add` builds the shift from its code and inserts when the code is
valid. -/
def applyChange (s : Schedule) : ResolutionChange → Schedule
  | .swap assignment newEmployee =>
      let s1 := (s.removeAssignment assignment).1
      s1.addAssignment { employee := newEmployee, shift := assignment.shift,
                         station := assignment.station }
  | .remove assignment => (s.removeAssignment assignment).1
  | .add employee d shiftCode station =>
      match Shift.fromCode shiftCode d with
      | some shift =>
          s.addAssignment { employee := employee, shift := shift, station := station }
      | none => s
  | .modify_station assignment newStation =>
      let s1 := (s.removeAssignment assignment).1
      s1.addAssignment { employee := assignment.employee, shift := assignment.shift,
                         station := newStation }

/-- `ConflictResolverAgent._apply_resolution`: apply every change in order
and report success.  The embedded operations are total, so the source's
`except` path (which reports failure) is unreachable and the result flag is
always `true`. -/
def applyResolution (s : Schedule) (changes : List ResolutionChange) : Schedule × Bool :=
  (changes.foldl applyChange s, true)

/-! ## models/store.py and agents/staff_matcher.py -/

/-- `Store` from models/store.py, reduced to the fields the staff matcher
reads (id and the flags deciding the active stations; opening hours,
staffing tables and descriptive fields are not consulted by the verified
operations). -/
structure Store where
  id : String
  name : String := ""
  has_mccafe : Bool := false
  has_dessert_station : Bool := false
deriving DecidableEq, Repr

/-- `Store.get_active_stations` from models/store.py. -/
def Store.getActiveStations (st : Store) : List Station :=
  [Station.KITCHEN, Station.COUNTER] ++
    (if st.has_mccafe then [Station.MCCAFE] else []) ++
    (if st.has_dessert_station then [Station.DESSERT] else [])

/-- `date.weekday()` with the day-number convention that day 0 is a Monday
(so Monday = 0 … Sunday = 6, as in Python). -/
def dayOfWeek (d : Date) : Int := Int.emod d 7

/-- `EmployeeBid` dataclass from agents/staff_matcher.py. -/
structure EmployeeBid where
  employee_id : String
  employee_name : String
  shift_date : Date
  shift_code : String
  station : Station
  skill_bid : ℚ
  hours_bid : ℚ
  fairness_bid : ℚ
  preference_bid : ℚ
  total_score : ℚ
deriving DecidableEq, Repr

/-- The staff matcher's mutable state during `execute`: the schedule under
construction and the `_employee_hours` nested defaultdict (employee id →
week number → hours).  `_daily_assignments` is written but never read by
any decision, so it is omitted. -/
structure MatcherState where
  schedule : Schedule
  employee_hours : String → Int → ℚ := fun _ _ => 0

/-- `StaffMatcherAgent._get_average_hours_this_week`. -/
def averageHoursThisWeek (emps : List Employee) (st : MatcherState) (w : Int) : ℚ :=
  if emps.isEmpty then 0
  else ((emps.map (fun e => st.employee_hours e.id w)).sum) / emps.length

/-- `StaffMatcherAgent._generate_employee_bid`.  The `random.uniform(0, 5)`
jitter is the pipeline's only nondeterminism; it is supplied as an oracle
indexed by the bid's arguments (each combination is drawn at most once per
`execute`). -/
def generateEmployeeBid (emps : List Employee) (st : MatcherState) (e : Employee)
    (d : Date) (code : String) (station : Station)
    (jitter : Employee → Date → String → Station → ℚ) : EmployeeBid :=
  let skill_bid : ℚ :=
    if e.primary_station = station then 100
    else if e.skills.contains station then 60
    else 0
  let type_bid : ℚ :=
    match e.employee_type with
    | .FULL_TIME => 50
    | .PART_TIME => 30
    | .CASUAL => 15
  let w := weekNumber st.schedule.start_date d
  let currentHours := st.employee_hours e.id w
  let minHours := e.weekly_hours_target.1
  let maxHours := e.weekly_hours_target.2
  let need_bid : ℚ :=
    if currentHours < minHours then min 30 ((minHours - currentHours) * 2)
    else if currentHours < maxHours then 10
    else 0
  let hours_bid := type_bid + need_bid
  let avgHours := averageHoursThisWeek emps st w
  let fairness_bid : ℚ :=
    if currentHours < avgHours * (7/10) then 25
    else if currentHours < avgHours then 10
    else 0
  let weekend := 5 ≤ dayOfWeek d
  let preference_bid : ℚ :=
    if code = "1F" then 5
    else if code = "2F" ∧ ¬weekend then 3
    else if weekend then (if currentHours < minHours then 10 else -5)
    else 0
  let total := skill_bid + hours_bid + fairness_bid + preference_bid + jitter e d code station
  { employee_id := e.id, employee_name := e.name, shift_date := d, shift_code := code,
    station := station, skill_bid := skill_bid, hours_bid := hours_bid,
    fairness_bid := fairness_bid, preference_bid := preference_bid, total_score := total }

/-- `StaffMatcherAgent._get_ranked_candidates`: filter by availability,
not-already-assigned and station qualification, score each survivor once,
and sort by score descending (`sort(key=..., reverse=True)`, stable). -/
def rankedCandidates (emps : List Employee) (st : MatcherState) (d : Date) (code : String)
    (station : Station) (jitter : Employee → Date → String → Station → ℚ) : List Employee :=
  let candidates :=
    (emps.filter (fun e =>
        e.isAvailable d code && !(st.schedule.isEmployeeAssigned e.id d) &&
          e.canWorkStation station)).map
      (fun e => ((generateEmployeeBid emps st e d code station jitter).total_score, e))
  (insertionSortBy (fun a b => decide (b.1 < a.1)) candidates).map (fun p => p.2)

/-- `StaffMatcherAgent._check_rest_period`: at least 10 hours between the
proposed shift and every existing shift of the employee, in both
directions; the hour gaps are computed from absolute start/end datetimes. -/
def checkRestPeriod (sched : Schedule) (e : Employee) (newShift : Shift) : Bool :=
  (sched.assignmentsByEmployee e.id).all (fun a =>
    let hoursAfterExisting : ℚ := ((newShift.startDatetime - a.shift.endDatetime : Int) : ℚ) / 60
    let hoursBeforeExisting : ℚ := ((a.shift.startDatetime - newShift.endDatetime : Int) : ℚ) / 60
    !(decide (0 < hoursAfterExisting ∧ hoursAfterExisting < 10)) &&
      !(decide (0 < hoursBeforeExisting ∧ hoursBeforeExisting < 10)))

/-- `StaffMatcherAgent._can_assign`: availability, not already assigned
that day, weekly hours cap (rejecting only a strict excess over the
maximum), and the 10-hour rest rule. -/
def canAssign (st : MatcherState) (e : Employee) (d : Date) (code : String) : Bool :=
  if !(e.isAvailable d code) then false
  else if st.schedule.isEmployeeAssigned e.id d then false
  else
    match Shift.fromCode code d with
    | none => false
    | some shift =>
        let w := weekNumber st.schedule.start_date d
        if st.employee_hours e.id w + shift.hours > e.weekly_hours_target.2 then false
        else if !(checkRestPeriod st.schedule e shift) then false
        else true

/-- `StaffMatcherAgent._create_assignment`. -/
def createAssignment (e : Employee) (d : Date) (code : String)
    (station : Station) : Option Assignment :=
  (Shift.fromCode code d).map (fun shift => { employee := e, shift := shift, station := station })

/-- `StaffMatcherAgent._record_assignment`: add the assignment's hours to
the employee's tally for the week of the date. -/
def recordAssignment (st : MatcherState) (e : Employee) (d : Date)
    (a : Assignment) : MatcherState :=
  let w := weekNumber st.schedule.start_date d
  { st with employee_hours := fun i ww =>
      if i = e.id ∧ ww = w then st.employee_hours i ww + a.shift.hours
      else st.employee_hours i ww }

/-- The candidate loop of `StaffMatcherAgent._fill_station_shift`: walk the
ranked candidates, stop at the required count, and assign each candidate
that passes `_can_assign`; each accepted candidate is added to the schedule
and recorded in the hours tally before the next candidate is considered. -/
def fillSlot (d : Date) (code : String) (station : Station) (requiredCount : Nat) :
    List Employee → MatcherState → Nat → MatcherState
  | [], st, _ => st
  | e :: rest, st, filled =>
      if requiredCount ≤ filled then st
      else if canAssign st e d code then
        match createAssignment e d code station with
        | some a =>
            let st1 := { st with schedule := st.schedule.addAssignment a }
            fillSlot d code station requiredCount rest (recordAssignment st1 e d a) (filled + 1)
        | none => fillSlot d code station requiredCount rest st filled
      else fillSlot d code station requiredCount rest st filled

/-- `StaffMatcherAgent._fill_station_shift`: rank the candidates once for
this (date, shift, station) slot, then fill greedily from that single
snapshot. -/
def fillStationShift (emps : List Employee)
    (jitter : Employee → Date → String → Station → ℚ) (st : MatcherState)
    (d : Date) (code : String) (station : Station) (requiredCount : Nat) : MatcherState :=
  fillSlot d code station requiredCount (rankedCandidates emps st d code station jitter) st 0

/-- `StaffMatcherAgent._match_day`: shift codes in the fixed priority order
1F, 3F, 2F, then the store's active stations; a slot is filled only when
the forecast requires staff there.  The demand forecast's
`shift_requirements` tables are supplied as a lookup function
(date → shift code → station → required headcount, defaulting to 0). -/
def matchDay (emps : List Employee) (store : Store)
    (forecast : Date → String → Station → Nat)
    (jitter : Employee → Date → String → Station → ℚ)
    (st : MatcherState) (d : Date) : MatcherState :=
  ["1F", "3F", "2F"].foldl
    (fun st1 code =>
      store.getActiveStations.foldl
        (fun st2 station =>
          if 0 < forecast d code station then
            fillStationShift emps jitter st2 d code station (forecast d code station)
          else st2)
        st1)
    st

/-- The date range `start_date ≤ d ≤ end_date` walked by
`StaffMatcherAgent.execute` (empty when `end_date < start_date`). -/
def datesInRange (startDate endDate : Date) : List Date :=
  (List.range (endDate - startDate + 1).toNat).map (fun i => startDate + i)

/-- `StaffMatcherAgent.execute` (the initial auction build): a fresh
schedule and zeroed hours tally, then `_match_day` over every date in the
range. -/
def executeMatcher (emps : List Employee) (store : Store)
    (forecast : Date → String → Station → Nat)
    (startDate endDate : Date)
    (jitter : Employee → Date → String → Station → ℚ) : MatcherState :=
  (datesInRange startDate endDate).foldl (matchDay emps store forecast jitter)
    { schedule := Schedule.fresh startDate endDate store.id }

/-! ## Concrete fixtures used by the closed theorems and witnesses -/

/-- A Full-Time employee as produced by the data loader (post-init gives
skills = {Kitchen} and hours target (35, 38)). -/
def empFT : Employee :=
  Employee.make "E1" "Alice" EmployeeType.FULL_TIME Station.KITCHEN
    [(0, ["1F", "2F"]), (1, ["1F", "2F"]), (2, ["3F"]), (3, ["3F"]), (4, ["1F"])] []

/-- A Part-Time counter employee. -/
def empPT : Employee :=
  Employee.make "E2" "Bob" EmployeeType.PART_TIME Station.COUNTER
    [(0, ["1F", "2F"]), (1, ["1F", "2F"])] []

/-- The 1F shift (06:30–15:30, 9h) on day `d`; the theorems using it state
`Shift.fromCode "1F" d = some (shift1F d)` explicitly. -/
def shift1F (d : Date) : Shift :=
  { shift_type := ShiftType.FIRST_HALF, date := d, start_time := 390,
    end_time := 930, hours := 9, break_minutes := 30 }

/-- The 2F shift (14:00–23:00, 9h) on day `d`. -/
def shift2F (d : Date) : Shift :=
  { shift_type := ShiftType.SECOND_HALF, date := d, start_time := 840,
    end_time := 1380, hours := 9, break_minutes := 30 }

/-- The 3F shift (08:00–20:00, 12h) on day `d`. -/
def shift3F (d : Date) : Shift :=
  { shift_type := ShiftType.FULL_DAY, date := d, start_time := 480,
    end_time := 1200, hours := 12, break_minutes := 30 }

/-- Kitchen assignment fixture. -/
def asgOf (e : Employee) (s : Shift) : Assignment :=
  { employee := e, shift := s, station := Station.KITCHEN }

/-- Schedule built by repeated `add_assignment` from a fresh schedule. -/
def schedOf (startD endD : Date) (l : List Assignment) : Schedule :=
  l.foldl Schedule.addAssignment (Schedule.fresh startD endD "Store_1")

/-! ## Permutation facts about the stable sort -/

theorem insertOrdered_perm {α : Type} (lt : α → α → Bool) (x : α) (l : List α) :
    (insertOrdered lt x l).Perm (x :: l) := by
  induction l with
  | nil => exact List.Perm.refl _
  | cons y t ih =>
      simp only [insertOrdered]
      split
      · exact List.Perm.refl _
      · exact (ih.cons y).trans (List.Perm.swap x y t)

theorem insertionSort_foldl_perm {α : Type} (lt : α → α → Bool) (l acc : List α) :
    (l.foldl (fun acc x => insertOrdered lt x acc) acc).Perm (l ++ acc) := by
  induction l generalizing acc with
  | nil => simp
  | cons x t ih =>
      simp only [List.foldl_cons, List.cons_append]
      exact ((ih (insertOrdered lt x acc)).trans
        (List.Perm.append_left t (insertOrdered_perm lt x acc))).trans
        List.perm_middle

theorem insertionSortBy_perm {α : Type} (lt : α → α → Bool) (l : List α) :
    (insertionSortBy lt l).Perm l := by
  have h := insertionSort_foldl_perm lt l []
  simpa [insertionSortBy] using h

/-! ## Claim C4 — Gini computation -/

/- The Batteries rational-arithmetic primitives are `@[irreducible]`, which
blocks `decide` from evaluating exact rational arithmetic; re-opening them
lets closed evaluations go through the kernel. -/
unseal Rat.add Rat.mul Rat.inv Rat.sub

/-- C4: `_calculate_gini` returns 0.0 on [10,10,10,10], 0.75 on [0,0,0,40]
(per `G = 2Σ((i+1)hᵢ)/(nΣhᵢ) − (n+1)/n` over the ascending sort with
1-indexed ranks), 0.0 on an empty or zero-sum list, and clamps every
result into [0,1]. -/
theorem C4_gini :
    calculateGini [10, 10, 10, 10] = 0 ∧
    calculateGini [0, 0, 0, 40] = 3/4 ∧
    calculateGini [] = 0 ∧
    (∀ values : List ℚ, values.sum = 0 → calculateGini values = 0) ∧
    (∀ values : List ℚ, 0 ≤ calculateGini values ∧ calculateGini values ≤ 1) := by
  refine ⟨by decide, by decide, by decide, ?_, ?_⟩
  · intro values h
    by_cases hv : values.isEmpty
    · simp [calculateGini, hv]
    · have hsum : (insertionSortBy (fun a b => decide (a < b)) values).sum = 0 := by
        rw [(insertionSortBy_perm _ values).sum_eq, h]
      simp [calculateGini, hv, hsum]
  · intro values
    by_cases hv : values.isEmpty
    · simp [calculateGini, hv]
    · set L := insertionSortBy (fun a b => decide (a < b)) values with hL
      by_cases ht : L.sum = 0
      · simp [calculateGini, hv, ← hL, ht]
      · have hg : calculateGini values =
            max 0 (min 1 (2 * (L.enum.map (fun p => ((p.1 : ℚ) + 1) * p.2)).sum /
              ((L.length : ℚ) * L.sum) - ((L.length : ℚ) + 1) / (L.length : ℚ))) := by
          simp [calculateGini, hv, ← hL, ht]
        rw [hg]
        exact ⟨le_max_left 0 _, max_le (by norm_num) (min_le_left 1 _)⟩

/-- Witness for C4: the quantified clauses evaluated at concrete lists. -/
theorem C4_gini_witness :
    calculateGini [0, 0] = 0 ∧ (0 ≤ calculateGini [5, 35] ∧ calculateGini [5, 35] ≤ 1) :=
  ⟨C4_gini.2.2.2.1 [0, 0] (by decide), C4_gini.2.2.2.2 [5, 35]⟩

/-! ## Claims C3, C2 — compliance result scoring and escalation -/

/-- A fresh compliance result, `ComplianceResult(is_compliant=True)`. -/
def freshResult : ComplianceResult := { is_compliant := true }

/-- A single-person non-peak coverage shortfall (informational). -/
def covInfo : Violation :=
  { constraint_type := ConstraintType.COVERAGE, severity := 6,
    description := "No designated opening staff",
    affected_entity := "schedule", affected_date := some 0,
    details := { current_coverage := some 2, required_coverage := some 3 } }

/-- C3: a soft (non-hard) violation added through `add_violation` lowers
the score by at most 0.5 points, and a violation in any of the three
informational categories (approaching-limit alert, fairness note with Gini
below 0.4, single-person non-peak coverage shortfall) lowers it by exactly
zero. -/
theorem C3_soft_penalty_cap (r : ComplianceResult) (v : Violation)
    (hsoft : v.isHardConstraint = false) (hscore : 0 ≤ r.score) :
    r.score - (r.addViolation v).score ≤ 1/2 ∧
    ((v.details.alert_type = some "approaching_limit" ∨
      (v.constraint_type = ConstraintType.FAIRNESS ∧
        v.details.gini_coefficient.getD 0 < 2/5) ∨
      (v.constraint_type = ConstraintType.COVERAGE ∧
        v.details.required_coverage.getD 0 - v.details.current_coverage.getD 0 ≤ 1 ∧
        v.details.peak_type = none)) →
      (r.addViolation v).score = r.score) := by
  have hadd : (r.addViolation v).score = max 0 (r.score - calculateSoftPenalty v) := by
    simp [ComplianceResult.addViolation, hsoft]
  have hw : 0 ≤ softWeight v.constraint_type := by
    cases v.constraint_type <;> norm_num [softWeight]
  have hple : calculateSoftPenalty v ≤ 1/2 := by
    unfold calculateSoftPenalty
    split
    · norm_num
    · exact min_le_right _ _
  constructor
  · have h1 : r.score - calculateSoftPenalty v ≤ max 0 (r.score - calculateSoftPenalty v) :=
      le_max_right _ _
    rw [hadd]
    linarith
  · intro hcase
    have hinf : isInformationalWarning v = true := by
      unfold isInformationalWarning
      split_ifs with h1 h2 h3
      · rfl
      · rfl
      · rfl
      · exfalso
        rcases hcase with h | h | h
        · exact h1 h
        · exact h2 h
        · exact h3 h
    have hpen : calculateSoftPenalty v = 0 := by
      simp [calculateSoftPenalty, hinf]
    rw [hadd, hpen, sub_zero, max_eq_right hscore]

/-- Witness for C3: the informational coverage shortfall costs zero. -/
theorem C3_soft_penalty_cap_witness :
    (freshResult.addViolation covInfo).score = freshResult.score ∧
    freshResult.score - (freshResult.addViolation covInfo).score ≤ 1/2 := by
  have h := C3_soft_penalty_cap freshResult covInfo (by decide) (by norm_num [freshResult])
  exact ⟨h.2 (Or.inr (Or.inr ⟨rfl, by decide, rfl⟩)), h.1⟩

/-- A hard rest-period violation fixture. -/
def hardViol : Violation :=
  { constraint_type := ConstraintType.REST_PERIOD, severity := 10,
    description := "insufficient rest", affected_entity := "E1",
    affected_date := some 1,
    suggestions := ["Reassign one of the shifts"] }

/-- A compliance result holding that one hard violation. -/
def resultWithHard : ComplianceResult :=
  { is_compliant := false, violations := [hardViol], score := 80 }

/-- C2: escalating a violation present in the hard list removes its first
occurrence from that list, appends it to `pending_approvals` carrying the
caller's (non-empty) escalation reason, the manager-approval flag, and the
manager-approval-marked suggestion inserted at position 0, and afterwards
`is_compliant` holds exactly when no hard violations remain — pending
approvals never block compliance. -/
theorem C2_escalation (r : ComplianceResult) (v : Violation) (reason : String)
    (hhard : v.isHardConstraint = true) (hmem : v ∈ r.violations) (hreason : reason ≠ "") :
    (r.escalateToManager v reason).violations = r.violations.erase v ∧
    (∃ v1, (r.escalateToManager v reason).pending_approvals = r.pending_approvals ++ [v1] ∧
      v1.details.escalation_reason = some reason ∧ reason ≠ "" ∧
      v1.details.requires_manager_approval = true ∧
      v1.suggestions.head? = some (escalationMarker ++ reason)) ∧
    ((r.escalateToManager v reason).is_compliant = true ↔
      (r.escalateToManager v reason).violations = []) := by
  unfold ComplianceResult.escalateToManager
  rw [if_pos hmem]
  refine ⟨rfl, ⟨_, rfl, rfl, hreason, rfl, rfl⟩, ?_⟩
  simp

/-- Witness for C2: escalating the only hard violation empties the hard
list and flips the result compliant. -/
theorem C2_escalation_witness :
    (resultWithHard.escalateToManager hardViol "cannot auto-resolve").violations = [] ∧
    (resultWithHard.escalateToManager hardViol "cannot auto-resolve").is_compliant = true ∧
    (resultWithHard.escalateToManager hardViol "cannot auto-resolve").pending_approvals.length = 1 := by
  have h := C2_escalation resultWithHard hardViol "cannot auto-resolve"
    (by decide) (by decide) (by decide)
  refine ⟨?_, ?_, ?_⟩
  · rw [h.1]
    decide
  · exact h.2.2.mpr (by rw [h.1]; decide)
  · rcases h.2.1 with ⟨v1, hp, _⟩
    rw [hp]
    simp [resultWithHard]

/-! ## Claim C1 — hours-limit boundaries for a Full-Time employee -/

/-- Schedule giving `empFT` 33 hours in week 0 (3F + 3F + 1F). -/
def sched33 : Schedule :=
  schedOf 0 13 [asgOf empFT (shift3F 2), asgOf empFT (shift3F 3), asgOf empFT (shift1F 4)]

/-- Counterexample to C1 as stated: a Full-Time employee at 33.0 weekly
hours falls into the `hours < min` (35) branch, producing the severity-4
`HOURS_MIN` warning — not the approaching-limit alert — and that warning's
soft penalty is 0.1, not zero.  Moreover the approaching-limit alert that
does fire (e.g. at 36.0 hours) is typed `HOURS_MAX`, a hard category, so
`add_violation` routes it to the hard list with a `severity × 2 = 4` score
penalty and flips compliance, instead of a zero-penalty soft warning. -/
theorem C1_counterexample :
    ((checkHoursCompliance sched33 [empFT]).map
        (fun v => (v.constraint_type, v.severity, v.details.alert_type)))
      = [(ConstraintType.HOURS_MIN, 4, none)] ∧
    ((weekHoursViolation empFT 33).map
        (fun v => (v.constraint_type, v.details.alert_type)))
      = some (ConstraintType.HOURS_MIN, none) ∧
    ((weekHoursViolation empFT 33).map (fun v => calculateSoftPenalty v)) = some (1/10) ∧
    ((weekHoursViolation empFT 36).map
        (fun v => (v.details.alert_type, v.isHardConstraint,
          (freshResult.addViolation v).score, (freshResult.addViolation v).is_compliant)))
      = some (some "approaching_limit", true, 96, false) := by decide

/-- C1 as amended: for a Full-Time employee (limits 35–38), 38.0 weekly
hours produces no exceeds-max violation but does produce the severity-2
approaching-limit alert (itself typed HOURS_MAX); 38.1 produces the
severity-9 hard HOURS_MAX violation with `excess_hours = 0.1`; 33.0
produces the severity-4 HOURS_MIN warning (shortfall 2.0) rather than the
approaching alert; the approaching alert fires within [35, 38] (e.g. at
36.0) with zero soft penalty per `_calculate_soft_penalty`, but being
HOURS_MAX-typed it is added as a hard violation costing 4 score points. -/
theorem C1_hours_boundary (e : Employee) (het : e.employee_type = EmployeeType.FULL_TIME) :
    ((weekHoursViolation e 38).map
        (fun v => (v.constraint_type, v.severity, v.details.alert_type, v.details.excess_hours)))
      = some (ConstraintType.HOURS_MAX, 2, some "approaching_limit", none) ∧
    ((weekHoursViolation e (381/10)).map
        (fun v => (v.constraint_type, v.severity, v.details.excess_hours, v.isHardConstraint)))
      = some (ConstraintType.HOURS_MAX, 9, some (1/10), true) ∧
    ((weekHoursViolation e 33).map
        (fun v => (v.constraint_type, v.severity, v.details.shortfall, v.details.alert_type)))
      = some (ConstraintType.HOURS_MIN, 4, some 2, none) ∧
    ((weekHoursViolation e 36).map
        (fun v => (v.details.alert_type, v.severity, calculateSoftPenalty v, v.isHardConstraint)))
      = some (some "approaching_limit", 2, 0, true) ∧
    (∀ v, weekHoursViolation e 36 = some v →
      (freshResult.addViolation v).score = 96 ∧
      (freshResult.addViolation v).is_compliant = false) := by
  have hl : validatorHoursLimits e.employee_type = (35, 38) := by
    rw [het]
    rfl
  refine ⟨?_, ?_, ?_, ?_, ?_⟩
  · norm_num [weekHoursViolation, hl]
  · norm_num [weekHoursViolation, hl, Violation.isHardConstraint]
  · norm_num [weekHoursViolation, hl]
  · norm_num [weekHoursViolation, hl, calculateSoftPenalty, isInformationalWarning,
      Violation.isHardConstraint]
  · intro v hv
    rw [weekHoursViolation, hl] at hv
    norm_num at hv
    rw [← hv]
    constructor
    · norm_num [ComplianceResult.addViolation, freshResult, Violation.isHardConstraint]
    · norm_num [ComplianceResult.addViolation, freshResult, Violation.isHardConstraint]

/-- Witness for C1's amended theorem at the concrete Full-Time employee. -/
theorem C1_hours_boundary_witness :
    ((weekHoursViolation empFT 38).map
        (fun v => (v.constraint_type, v.severity, v.details.alert_type, v.details.excess_hours)))
      = some (ConstraintType.HOURS_MAX, 2, some "approaching_limit", none) ∧
    ((weekHoursViolation empFT (381/10)).map
        (fun v => (v.constraint_type, v.severity, v.details.excess_hours, v.isHardConstraint)))
      = some (ConstraintType.HOURS_MAX, 9, some (1/10), true) :=
  ⟨(C1_hours_boundary empFT rfl).1, (C1_hours_boundary empFT rfl).2.1⟩

/-! ## Claim C6 — rest-period check on the two concrete shift patterns -/

/-- C6: a 1F shift (ends 15:30) followed next day by a 2F shift (starts
14:00) leaves 22.5 hours of rest and no violation; a 2F shift (ends 23:00)
followed next day by a 1F shift (starts 06:30) leaves 7.5 hours and
produces exactly one severity-10 hard REST_PERIOD violation dated at the
later shift. -/
theorem C6_rest_period_check :
    Shift.fromCode "1F" 0 = some (shift1F 0) ∧
    Shift.fromCode "2F" 1 = some (shift2F 1) ∧
    (shift1F 0).hoursUntilNext (shift2F 1) = 45/2 ∧
    checkRestPeriodCompliance
      (schedOf 0 13 [asgOf empFT (shift1F 0), asgOf empFT (shift2F 1)]) [empFT] = [] ∧
    Shift.fromCode "2F" 0 = some (shift2F 0) ∧
    Shift.fromCode "1F" 1 = some (shift1F 1) ∧
    (shift2F 0).hoursUntilNext (shift1F 1) = 15/2 ∧
    ((checkRestPeriodCompliance
        (schedOf 0 13 [asgOf empFT (shift2F 0), asgOf empFT (shift1F 1)]) [empFT]).map
      (fun v => (v.constraint_type, v.severity, v.affected_date, v.isHardConstraint,
        v.details.rest_hours)))
      = [(ConstraintType.REST_PERIOD, 10, some 1, true, some (15/2))] := by
  refine ⟨?_, ?_, ?_, ?_, ?_, ?_, ?_, ?_⟩ <;> decide

/-! ## Claim C7 — message bus routing -/

/-- C7: `send` appends the message to the history unconditionally; with no
receiver it invokes exactly the handlers of the registered agents other
than the sender (each with the message itself); with a registered receiver
it invokes exactly that agent's handler; with an unregistered receiver it
invokes none (and, being a total function, raises nothing).  Invocations
are returned by `send`, so every one of them has completed before `send`
returns — the synchronous-dispatch contract. -/
theorem C7_message_bus_send {H : Type} (bus : MessageBus H) (m : Message) :
    ((bus.send m).1.message_history = bus.message_history ++ [m]) ∧
    (m.receiver = none →
      (∀ h : H, (h, m) ∈ (bus.send m).2 ↔
        ∃ name, (name, h) ∈ bus.subscribers ∧ name ≠ m.sender) ∧
      (∀ q ∈ (bus.send m).2, q.2 = m)) ∧
    (∀ r p, m.receiver = some r →
      bus.subscribers.find? (fun q => q.1 == r) = some p →
      (bus.send m).2 = [(p.2, m)]) ∧
    (∀ r, m.receiver = some r →
      bus.subscribers.find? (fun q => q.1 == r) = none →
      (bus.send m).2 = []) := by
  refine ⟨?_, ?_, ?_, ?_⟩
  · rcases hm : m.receiver with _ | r
    · simp [MessageBus.send, hm]
    · rcases hf : bus.subscribers.find? (fun q => q.1 == r) with _ | p <;>
        simp [MessageBus.send, hm, hf]
  · intro hm
    constructor
    · intro h
      simp only [MessageBus.send, hm, List.mem_map, List.mem_filter, Prod.mk.injEq,
        decide_eq_true_eq]
      constructor
      · rintro ⟨p, ⟨hp, hne⟩, hph, -⟩
        refine ⟨p.1, ?_, hne⟩
        rw [← hph]
        exact hp
      · rintro ⟨name, hmem, hne⟩
        exact ⟨(name, h), ⟨hmem, hne⟩, rfl, trivial⟩
    · intro q hq
      simp only [MessageBus.send, hm, List.mem_map] at hq
      rcases hq with ⟨p, -, rfl⟩
      rfl
  · intro r p hm hf
    simp [MessageBus.send, hm, hf]
  · intro r hm hf
    simp [MessageBus.send, hm, hf]

/-- Bus fixture: agents A, B, C with handler tokens 1, 2, 3. -/
def busABC : MessageBus Nat :=
  (((MessageBus.mk [] []).register "A" 1).register "B" 2).register "C" 3

/-- A broadcast status message from A. -/
def msgBroadcast : Message := { msg_type := MessageType.STATUS, sender := "A" }

/-- A request from A addressed to B. -/
def msgToB : Message :=
  { msg_type := MessageType.REQUEST, sender := "A", receiver := some "B" }

/-- A request from A addressed to an unregistered agent. -/
def msgToGhost : Message :=
  { msg_type := MessageType.REQUEST, sender := "A", receiver := some "Ghost" }

/-- Witness for C7 on the concrete three-agent bus. -/
theorem C7_message_bus_send_witness :
    (busABC.send msgToB).2 = [(2, msgToB)] ∧
    (busABC.send msgToGhost).2 = [] ∧
    (busABC.send msgBroadcast).1.message_history = [msgBroadcast] ∧
    ((busABC.send msgBroadcast).2.map (fun q => q.1)) = [2, 3] := by
  refine ⟨(C7_message_bus_send busABC msgToB).2.2.1 "B" ("B", 2) rfl (by decide),
          (C7_message_bus_send busABC msgToGhost).2.2.2 "Ghost" rfl (by decide),
          ?_, by decide⟩
  have h := (C7_message_bus_send busABC msgBroadcast).1
  simpa [busABC, MessageBus.register] using h

/-! ## Claim C8 — rate limiter sliding window -/

/-- The global limiter configuration (`RateLimiter(max_calls=10,
period_seconds=60.0)`) with no recorded calls. -/
def freshLimiter : RateLimiter := {}

/-- A sequence of `acquire` calls at the given timestamps, returning the
final limiter state and the outcomes in order. -/
def acquireAll : RateLimiter → List ℚ → RateLimiter × List Bool
  | rl, [] => (rl, [])
  | rl, t :: ts =>
      let step := rl.acquire t
      let rest := acquireAll step.1 ts
      (rest.1, step.2 :: rest.2)

theorem filter_true_of_all {α : Type} (p : α → Bool) (l : List α)
    (h : ∀ a ∈ l, p a = true) : l.filter p = l := by
  induction l with
  | nil => rfl
  | cons x t ih =>
      simp [List.filter_cons, h x (by simp), ih fun a ha => h a (by simp [ha])]

theorem filter_false_of_all {α : Type} (p : α → Bool) (l : List α)
    (h : ∀ a ∈ l, p a = false) : l.filter p = [] := by
  induction l with
  | nil => rfl
  | cons x t ih =>
      simp [List.filter_cons, h x (by simp), ih fun a ha => h a (by simp [ha])]

/-- While every recorded and every new timestamp stays inside one
60-second window and capacity is not exceeded, each `acquire` succeeds and
appends its timestamp. -/
theorem acquireAll_within_window (ts : List ℚ) :
    ∀ (rl : RateLimiter) (w : ℚ),
      rl.max_calls = 10 → rl.period_seconds = 60 →
      (∀ t ∈ rl.calls, w ≤ t ∧ t < w + 60) →
      (∀ t ∈ ts, w ≤ t ∧ t < w + 60) →
      rl.calls.length + ts.length ≤ 10 →
      acquireAll rl ts = ({ rl with calls := rl.calls ++ ts }, List.replicate ts.length true) := by
  induction ts with
  | nil =>
      intro rl w _ _ _ _ _
      simp [acquireAll]
  | cons t ts ih =>
      intro rl w hmax hper hcalls hts hlen
      have hfilter : rl.calls.filter (fun c => decide (t - c < rl.period_seconds)) = rl.calls := by
        apply filter_true_of_all
        intro c hc
        have h1 := hcalls c hc
        have h2 := hts t (by simp)
        rw [hper]
        exact decide_eq_true (by linarith)
      have hnotfull : ¬ rl.max_calls ≤
          (rl.calls.filter (fun c => decide (t - c < rl.period_seconds))).length := by
        rw [hfilter, hmax]
        simp only [List.length_cons] at hlen
        omega
      have hacq : rl.acquire t = ({ rl with calls := rl.calls ++ [t] }, true) := by
        unfold RateLimiter.acquire
        rw [if_neg hnotfull, hfilter]
      have hstep := ih { rl with calls := rl.calls ++ [t] } w hmax hper
        (by
          intro c hc
          rcases List.mem_append.mp hc with h | h
          · exact hcalls c h
          · rcases List.mem_singleton.mp h with rfl
            exact hts c (by simp))
        (fun x hx => hts x (by simp [hx]))
        (by
          simp only [List.length_append, List.length_cons, List.length_nil] at hlen ⊢
          omega)
      simp only [acquireAll, hacq, hstep, List.append_assoc, List.singleton_append,
        List.length_cons, List.replicate_succ]

/-- C8: from a fresh 10-per-60s limiter, ten `acquire` calls whose
timestamps all lie in one 60-second window all succeed; an eleventh call
in the same window fails and leaves the recorded calls unchanged; and at
any time at least 60 seconds past every recorded call, `remaining`
reports 10 and `acquire` succeeds again. -/
theorem C8_rate_limiter (w : ℚ) (ts : List ℚ) (t11 T : ℚ)
    (hlen : ts.length = 10)
    (hts : ∀ t ∈ ts, w ≤ t ∧ t < w + 60)
    (ht11 : w ≤ t11 ∧ t11 < w + 60)
    (hT : ∀ t ∈ ts, 60 ≤ T - t) :
    (acquireAll freshLimiter ts).2 = List.replicate 10 true ∧
    (acquireAll freshLimiter ts).1.calls = ts ∧
    (acquireAll freshLimiter ts).1.acquire t11 = ((acquireAll freshLimiter ts).1, false) ∧
    ((acquireAll freshLimiter ts).1.remaining T).2 = 10 ∧
    ((acquireAll freshLimiter ts).1.acquire T).2 = true := by
  have hrun := acquireAll_within_window ts freshLimiter w rfl rfl
    (by intro t ht; simp [freshLimiter] at ht)
    hts
    (by simp [freshLimiter, hlen])
  have hstate : (acquireAll freshLimiter ts).1 = RateLimiter.mk 10 60 ts := by
    rw [hrun]
    rfl
  have hfilter11 : ts.filter (fun c => decide (t11 - c < (60 : ℚ))) = ts := by
    apply filter_true_of_all
    intro c hc
    have h1 := hts c hc
    exact decide_eq_true (by linarith [ht11.1, ht11.2])
  have hfilterT : ts.filter (fun c => decide (T - c < (60 : ℚ))) = [] := by
    apply filter_false_of_all
    intro c hc
    have h1 := hT c hc
    exact decide_eq_false (by simp; linarith)
  refine ⟨by rw [hrun, hlen], by rw [hstate], ?_, ?_, ?_⟩
  · rw [hstate]
    show (if (10 : Nat) ≤ (ts.filter (fun t => decide (t11 - t < (60 : ℚ)))).length then _ else _)
      = (RateLimiter.mk 10 60 ts, false)
    rw [if_pos (by rw [hfilter11, hlen]), hfilter11]
  · rw [hstate]
    show 10 - (ts.filter (fun t => decide (T - t < (60 : ℚ)))).length = 10
    rw [hfilterT]
    rfl
  · rw [hstate]
    show (if (10 : Nat) ≤ (ts.filter (fun t => decide (T - t < (60 : ℚ)))).length then
        (_, false) else (_, true)).2 = true
    rw [if_neg (by rw [hfilterT]; simp)]

/-- Witness for C8 at concrete call times 0–9, a failing 11th call at 59,
and a fully elapsed window at time 120. -/
theorem C8_rate_limiter_witness :
    (acquireAll freshLimiter [0, 1, 2, 3, 4, 5, 6, 7, 8, 9]).2 = List.replicate 10 true ∧
    ((acquireAll freshLimiter [0, 1, 2, 3, 4, 5, 6, 7, 8, 9]).1.acquire 59)
      = ((acquireAll freshLimiter [0, 1, 2, 3, 4, 5, 6, 7, 8, 9]).1, false) ∧
    ((acquireAll freshLimiter [0, 1, 2, 3, 4, 5, 6, 7, 8, 9]).1.remaining 120).2 = 10 ∧
    ((acquireAll freshLimiter [0, 1, 2, 3, 4, 5, 6, 7, 8, 9]).1.acquire 120).2 = true := by
  have h := C8_rate_limiter 0 [0, 1, 2, 3, 4, 5, 6, 7, 8, 9] 59 120
    (by decide) (by decide) (by decide) (by decide)
  exact ⟨h.1, h.2.2.1, h.2.2.2.1, h.2.2.2.2⟩

/-! ## Claim C9 — applying a swap to a locked assignment is not atomic -/

theorem aeq_refl (a : Assignment) : aeq a a = true := by
  simp [aeq]

theorem containsA_append_left {l1 : List Assignment} (l2 : List Assignment)
    {a : Assignment} (h : containsA l1 a = true) : containsA (l1 ++ l2) a = true := by
  simp only [containsA, List.any_append, Bool.or_eq_true]
  exact Or.inl h

/-- C9: a swap resolution whose target assignment is locked still reports
success; `remove_assignment` refuses the locked original (its `False`
result is ignored) while the replacement is added anyway, so afterwards
the locked original and the replacement — same shift, same station,
different employees — are both in the schedule. -/
theorem C9_locked_swap (s : Schedule) (a : Assignment) (enew : Employee)
    (hlock : a.is_locked = true) (hmem : containsA s.assignments a = true) :
    (applyResolution s [ResolutionChange.swap a enew]).2 = true ∧
    (applyResolution s [ResolutionChange.swap a enew]).1.assignments
      = s.assignments ++ [{ employee := enew, shift := a.shift, station := a.station }] ∧
    containsA (applyResolution s [ResolutionChange.swap a enew]).1.assignments a = true ∧
    containsA (applyResolution s [ResolutionChange.swap a enew]).1.assignments
      { employee := enew, shift := a.shift, station := a.station } = true := by
  have hrem : s.removeAssignment a = (s, false) := by
    simp [Schedule.removeAssignment, hlock]
  have happ : (applyResolution s [ResolutionChange.swap a enew]).1
      = s.addAssignment { employee := enew, shift := a.shift, station := a.station } := by
    simp [applyResolution, applyChange, hrem]
  refine ⟨rfl, ?_, ?_, ?_⟩
  · rw [happ]
    rfl
  · rw [happ]
    exact containsA_append_left _ hmem
  · rw [happ]
    show containsA (s.assignments ++ [_]) _ = true
    simp only [containsA, List.any_append, Bool.or_eq_true, List.any_cons, List.any_nil,
      Bool.or_false]
    exact Or.inr (aeq_refl _)

/-- A locked 1F kitchen assignment for the Full-Time employee. -/
def lockedAsg : Assignment :=
  { employee := empFT, shift := shift1F 0, station := Station.KITCHEN, is_locked := true }

/-- A schedule holding only the locked assignment. -/
def schedLocked : Schedule := schedOf 0 13 [lockedAsg]

/-- Witness for C9: swapping the locked assignment to the Part-Time
employee leaves both employees on the same 1F kitchen shift. -/
theorem C9_locked_swap_witness :
    (applyResolution schedLocked [ResolutionChange.swap lockedAsg empPT]).2 = true ∧
    containsA (applyResolution schedLocked
      [ResolutionChange.swap lockedAsg empPT]).1.assignments lockedAsg = true ∧
    containsA (applyResolution schedLocked
      [ResolutionChange.swap lockedAsg empPT]).1.assignments
      { employee := empPT, shift := shift1F 0, station := Station.KITCHEN } = true := by
  have h := C9_locked_swap schedLocked lockedAsg empPT (by decide) (by decide)
  exact ⟨h.1, h.2.2.1, h.2.2.2⟩

/-! ## Claim C5 — schedule/index consistency

`aeq` (Python `Assignment.__eq__`) is the kernel of the list and index
bookkeeping; it is an equivalence because it is equality of the compared
field tuple `akey`. -/

theorem aeq_iff (a b : Assignment) : aeq a b = true ↔ akey a = akey b := by
  simp [aeq]

theorem aeq_symm {a b : Assignment} (h : aeq a b = true) : aeq b a = true := by
  rw [aeq_iff] at *
  exact h.symm

theorem aeq_trans {a b c : Assignment} (h1 : aeq a b = true) (h2 : aeq b c = true) :
    aeq a c = true := by
  rw [aeq_iff] at *
  exact h1.trans h2

theorem aeq_components {p q : Assignment} (h : aeq p q = true) :
    p.employee.id = q.employee.id ∧ p.shift = q.shift ∧ p.station = q.station := by
  rw [aeq_iff] at h
  simp only [akey, Prod.mk.injEq] at h
  exact ⟨h.1, h.2.1, h.2.2.1⟩

theorem countA_append (a : Assignment) (l1 l2 : List Assignment) :
    countA a (l1 ++ l2) = countA a l1 + countA a l2 := by
  induction l1 with
  | nil => simp [countA]
  | cons b t ih => simp [countA, ih, Nat.add_assoc]

theorem containsA_iff_pos (l : List Assignment) (a : Assignment) :
    containsA l a = true ↔ 0 < countA a l := by
  induction l with
  | nil => simp [containsA, countA]
  | cons b t ih =>
      simp only [containsA, List.any_cons, Bool.or_eq_true, countA] at *
      cases hab : aeq a b
      · have hba : aeq b a = false := by
          cases hba : aeq b a
          · rfl
          · rw [aeq_symm hba] at hab
            cases hab
        simp [hba, hab, ih]
      · simp [aeq_symm hab, hab]

theorem countA_removeFirst_aeq {l : List Assignment} {a b : Assignment}
    (hab : aeq a b = true) (hmem : containsA l b = true) :
    countA a (removeFirstA l b) + 1 = countA a l := by
  induction l with
  | nil => simp [containsA] at hmem
  | cons c t ih =>
      cases hcb : aeq c b
      · have hmem' : containsA t b = true := by
          simp only [containsA, List.any_cons, Bool.or_eq_true, hcb] at hmem
          rcases hmem with h | h
          · cases h
          · exact h
        have hac : aeq a c = false := by
          cases h : aeq a c
          · rfl
          · rw [aeq_trans (aeq_symm h) hab] at hcb
            cases hcb
        simp [removeFirstA, hcb, countA, hac, ih hmem']
      · have hac : aeq a c = true := aeq_trans hab (aeq_symm hcb)
        simp [removeFirstA, hcb, countA, hac, Nat.add_comm]

theorem countA_removeFirst_not_aeq {l : List Assignment} {a b : Assignment}
    (hab : aeq a b = false) :
    countA a (removeFirstA l b) = countA a l := by
  induction l with
  | nil => rfl
  | cons c t ih =>
      cases hcb : aeq c b
      · simp [removeFirstA, hcb, countA, ih]
      · have hac : aeq a c = false := by
          cases h : aeq a c
          · rfl
          · rw [aeq_trans h hcb] at hab
            cases hab
        simp [removeFirstA, hcb, countA, hac]

/-- One derived index is in sync with the assignment list: every
assignment occurs in the bucket at its own key exactly as often as in the
list, and in no other bucket. -/
def IndexOk {κ : Type} (key : Assignment → κ) (L : List Assignment)
    (idx : κ → List Assignment) : Prop :=
  (∀ a, countA a L = countA a (idx (key a))) ∧
  (∀ a k, k ≠ key a → countA a (idx k) = 0)

theorem IndexOk.add {κ : Type} [DecidableEq κ] {key : Assignment → κ}
    {L : List Assignment} {idx : κ → List Assignment}
    (hkey : ∀ p q, aeq p q = true → key p = key q)
    (h : IndexOk key L idx) (x : Assignment) :
    IndexOk key (L ++ [x]) (fun k => if k = key x then idx k ++ [x] else idx k) := by
  obtain ⟨hmain, hoff⟩ := h
  constructor
  · intro a
    show countA a (L ++ [x])
      = countA a (if key a = key x then idx (key a) ++ [x] else idx (key a))
    by_cases hk : key a = key x
    · rw [if_pos hk, countA_append, countA_append, hmain a]
    · have hax : aeq a x = false := by
        cases hax : aeq a x
        · rfl
        · exact absurd (hkey a x hax) hk
      rw [if_neg hk, countA_append]
      simp [countA, hax, hmain a]
  · intro a k hk
    show countA a (if k = key x then idx k ++ [x] else idx k) = 0
    by_cases hkx : k = key x
    · have hax : aeq a x = false := by
        cases hax : aeq a x
        · rfl
        · exact absurd (hkx.trans (hkey a x hax).symm) hk
      rw [if_pos hkx, countA_append, hoff a k hk]
      simp [countA, hax]
    · rw [if_neg hkx]
      exact hoff a k hk

theorem IndexOk.remove {κ : Type} [DecidableEq κ] {key : Assignment → κ}
    {L : List Assignment} {idx : κ → List Assignment}
    (hkey : ∀ p q, aeq p q = true → key p = key q)
    (h : IndexOk key L idx) (x : Assignment) (hmem : containsA L x = true) :
    IndexOk key (removeFirstA L x)
      (fun k => if k = key x then removeFirstA (idx k) x else idx k) := by
  obtain ⟨hmain, hoff⟩ := h
  have hbucket : containsA (idx (key x)) x = true := by
    rw [containsA_iff_pos] at hmem ⊢
    rw [← hmain x]
    exact hmem
  constructor
  · intro a
    show countA a (removeFirstA L x)
      = countA a (if key a = key x then removeFirstA (idx (key a)) x else idx (key a))
    cases hax : aeq a x
    · rw [countA_removeFirst_not_aeq hax]
      by_cases hk : key a = key x
      · rw [if_pos hk, countA_removeFirst_not_aeq hax, hmain a]
      · rw [if_neg hk, hmain a]
    · have hk : key a = key x := hkey a x hax
      rw [if_pos hk]
      have h1 := countA_removeFirst_aeq hax hmem
      have h2 : containsA (idx (key a)) x = true := by
        rw [hk]
        exact hbucket
      have h3 := countA_removeFirst_aeq hax h2
      have h4 := hmain a
      omega
  · intro a k hk
    show countA a (if k = key x then removeFirstA (idx k) x else idx k) = 0
    by_cases hkx : k = key x
    · rw [if_pos hkx]
      cases hax : aeq a x
      · rw [countA_removeFirst_not_aeq hax]
        exact hoff a k hk
      · exact absurd (hkx.trans (hkey a x hax).symm) hk
    · rw [if_neg hkx]
      exact hoff a k hk

/-- The C5 invariant: the assignment list agrees with all three derived
indexes, in both directions (occurrence counts match at the proper key,
and no assignment sits in a foreign bucket). -/
def Consistent (s : Schedule) : Prop :=
  IndexOk (fun a => a.shift.date) s.assignments s.by_date ∧
  IndexOk (fun a => a.employee.id) s.assignments s.by_employee ∧
  IndexOk (fun a => a.station) s.assignments s.by_station

theorem addAssignment_consistent {s : Schedule} (h : Consistent s) (a : Assignment) :
    Consistent (s.addAssignment a) := by
  obtain ⟨hd, he, hst⟩ := h
  refine ⟨?_, ?_, ?_⟩
  · exact IndexOk.add (fun p q hpq => by rw [(aeq_components hpq).2.1]) hd a
  · exact IndexOk.add (fun p q hpq => (aeq_components hpq).1) he a
  · exact IndexOk.add (fun p q hpq => (aeq_components hpq).2.2) hst a

theorem removeAssignment_consistent {s : Schedule} (h : Consistent s) (a : Assignment) :
    Consistent (s.removeAssignment a).1 := by
  cases hlock : a.is_locked
  · by_cases hmem : containsA s.assignments a = true
    · have hres : (s.removeAssignment a).1 =
          { s with
            assignments := removeFirstA s.assignments a,
            by_date := fun d => if d = a.shift.date then removeFirstA (s.by_date d) a
              else s.by_date d,
            by_employee := fun i => if i = a.employee.id then removeFirstA (s.by_employee i) a
              else s.by_employee i,
            by_station := fun st => if st = a.station then removeFirstA (s.by_station st) a
              else s.by_station st } := by
        simp [Schedule.removeAssignment, hlock, hmem]
      rw [hres]
      obtain ⟨hd, he, hst⟩ := h
      refine ⟨?_, ?_, ?_⟩
      · exact IndexOk.remove (fun p q hpq => by rw [(aeq_components hpq).2.1]) hd a hmem
      · exact IndexOk.remove (fun p q hpq => (aeq_components hpq).1) he a hmem
      · exact IndexOk.remove (fun p q hpq => (aeq_components hpq).2.2) hst a hmem
    · have : (s.removeAssignment a).1 = s := by
        simp [Schedule.removeAssignment, hlock, hmem]
      rw [this]
      exact h
  · have : (s.removeAssignment a).1 = s := by
      simp [Schedule.removeAssignment, hlock]
    rw [this]
    exact h

/-- One mutation of the schedule through its public operations. -/
inductive ScheduleOp
  | add (a : Assignment)
  | remove (a : Assignment)

/-- Run one operation (`add_assignment`, or `remove_assignment` dropping
the boolean result). -/
def applyOp (s : Schedule) : ScheduleOp → Schedule
  | .add a => s.addAssignment a
  | .remove a => (s.removeAssignment a).1

/-- Run a finite sequence of add/remove operations. -/
def applyOps (s : Schedule) (ops : List ScheduleOp) : Schedule :=
  ops.foldl applyOp s

theorem consistent_fresh (startD endD : Date) (storeId : String) :
    Consistent (Schedule.fresh startD endD storeId) := by
  refine ⟨⟨?_, ?_⟩, ⟨?_, ?_⟩, ⟨?_, ?_⟩⟩
  · intro a
    rfl
  · intro a k _
    rfl
  · intro a
    rfl
  · intro a k _
    rfl
  · intro a
    rfl
  · intro a k _
    rfl

/-- C5: from any consistent schedule, every finite sequence of
`add_assignment`/`remove_assignment` operations preserves agreement
between the assignment list and the by-date, by-employee and by-station
indexes (same occurrence count at the proper key, absence everywhere
else), and removing a locked assignment returns `False` and leaves the
whole schedule — list and all three indexes — unchanged. -/
theorem C5_schedule_index_consistency (s : Schedule) (ops : List ScheduleOp)
    (h : Consistent s) :
    Consistent (applyOps s ops) ∧
    (∀ a : Assignment, a.is_locked = true → s.removeAssignment a = (s, false)) := by
  constructor
  · induction ops generalizing s with
    | nil => exact h
    | cons op t ih =>
        cases op with
        | add a => exact ih _ (addAssignment_consistent h a)
        | remove a => exact ih _ (removeAssignment_consistent h a)
  · intro a hlock
    simp [Schedule.removeAssignment, hlock]

/-- Assignment fixtures for the C5 witness. -/
def asgA : Assignment := asgOf empFT (shift1F 0)

def asgB : Assignment := asgOf empPT (shift2F 0)

/-- Witness for C5: a concrete add/add/remove run from a fresh schedule,
plus the locked-removal no-op. -/
theorem C5_schedule_index_consistency_witness :
    Consistent (applyOps (Schedule.fresh 0 13 "Store_1")
      [ScheduleOp.add asgA, ScheduleOp.add asgB, ScheduleOp.remove asgA]) ∧
    (Schedule.fresh 0 13 "Store_1").removeAssignment lockedAsg
      = (Schedule.fresh 0 13 "Store_1", false) := by
  have h := C5_schedule_index_consistency (Schedule.fresh 0 13 "Store_1")
    [ScheduleOp.add asgA, ScheduleOp.add asgB, ScheduleOp.remove asgA]
    (consistent_fresh 0 13 "Store_1")
  exact ⟨h.1, h.2 lockedAsg (by decide)⟩

/-! ## Claim C10 — the auction never exceeds an employee's weekly maximum -/

theorem nodup_map_inj {α β : Type} {f : α → β} {l : List α}
    (h : (l.map f).Nodup) : ∀ x ∈ l, ∀ y ∈ l, f x = f y → x = y := by
  induction l with
  | nil =>
      intro x hx
      cases hx
  | cons a t ih =>
      simp only [List.map_cons, List.nodup_cons] at h
      intro x hx y hy hxy
      rcases List.mem_cons.mp hx with hxa | hxt
      · rcases List.mem_cons.mp hy with hya | hyt
        · rw [hxa, hya]
        · exfalso
          apply h.1
          rw [← hxa, hxy]
          exact List.mem_map_of_mem f hyt
      · rcases List.mem_cons.mp hy with hya | hyt
        · exfalso
          apply h.1
          rw [← hya, ← hxy]
          exact List.mem_map_of_mem f hxt
        · exact ih h.2 x hxt y hyt hxy

theorem fromCode_date {code : String} {d : Date} {shift : Shift}
    (h : Shift.fromCode code d = some shift) : shift.date = d := by
  unfold Shift.fromCode at h
  split at h
  · simp at h
  · split at h
    · obtain rfl := Option.some.inj h
      rfl
    · simp at h

/-- Extract the weekly-hours feasibility bound from a successful
`_can_assign`. -/
theorem canAssign_true_hours {st : MatcherState} {e : Employee} {d : Date} {code : String}
    (h : canAssign st e d code = true) :
    ∃ shift, Shift.fromCode code d = some shift ∧
      st.employee_hours e.id (weekNumber st.schedule.start_date d) + shift.hours
        ≤ e.weekly_hours_target.2 := by
  unfold canAssign at h
  rcases hfc : Shift.fromCode code d with _ | shift
  · simp [hfc] at h
  · simp only [hfc] at h
    refine ⟨shift, rfl, ?_⟩
    by_cases hgt : st.employee_hours e.id (weekNumber st.schedule.start_date d) + shift.hours
        > e.weekly_hours_target.2
    · simp [hgt] at h
    · exact not_lt.mp hgt

/-- With the other three gates passing, `_can_assign` accepts exactly when
the weekly total stays at or below the maximum — a total landing exactly on
the maximum is permitted, only a strict excess is rejected. -/
theorem canAssign_hours_gate (st : MatcherState) (e : Employee) (d : Date) (code : String)
    (shift : Shift) (hfc : Shift.fromCode code d = some shift)
    (hav : e.isAvailable d code = true)
    (hassigned : st.schedule.isEmployeeAssigned e.id d = false)
    (hrest : checkRestPeriod st.schedule e shift = true) :
    canAssign st e d code = true ↔
      st.employee_hours e.id (weekNumber st.schedule.start_date d) + shift.hours
        ≤ e.weekly_hours_target.2 := by
  unfold canAssign
  simp only [hav, hassigned, hfc, hrest, Bool.not_true, Bool.not_false]
  by_cases hgt : st.employee_hours e.id (weekNumber st.schedule.start_date d) + shift.hours
      > e.weekly_hours_target.2
  · simp [hgt, not_le.mpr hgt]
  · simp [hgt, not_lt.mp hgt]

/-- Adding one assignment adds its hours to exactly its employee's week. -/
theorem weekHours_addAssignment (s : Schedule) (a : Assignment) (i : String) (w : Int) :
    (s.addAssignment a).weekHours i w =
      s.weekHours i w +
        (if a.employee.id = i ∧ weekNumber s.start_date a.shift.date = w
         then a.shift.hours else 0) := by
  unfold Schedule.weekHours Schedule.addAssignment
  simp only [List.filter_append, List.map_append, List.sum_append]
  congr 1
  by_cases hc : a.employee.id = i ∧ weekNumber s.start_date a.shift.date = w
  · simp [List.filter, hc.1, hc.2, hc]
  · have hb : (a.employee.id == i && (weekNumber s.start_date a.shift.date == w)) = false := by
      rcases not_and_or.mp hc with h | h <;> simp [h]
    simp [List.filter, hb, hc]

/-- The staff matcher's running invariant: the hours tally never exceeds
any employee's weekly maximum, and it agrees with the schedule's per-week
hour sums. -/
def HoursInv (emps : List Employee) (st : MatcherState) : Prop :=
  (∀ e ∈ emps, ∀ w : Int, st.employee_hours e.id w ≤ e.weekly_hours_target.2) ∧
  (∀ (i : String) (w : Int), st.employee_hours i w = st.schedule.weekHours i w)

theorem fill_step_inv {emps : List Employee} {st : MatcherState} {e : Employee}
    {d : Date} {code : String} {station : Station} {a : Assignment}
    (hinj : ∀ x ∈ emps, ∀ y ∈ emps, x.id = y.id → x = y)
    (hmem : e ∈ emps)
    (hinv : HoursInv emps st)
    (hcan : canAssign st e d code = true)
    (hcreate : createAssignment e d code station = some a) :
    HoursInv emps
      (recordAssignment { st with schedule := st.schedule.addAssignment a } e d a) := by
  obtain ⟨hbound, htrack⟩ := hinv
  obtain ⟨shift, hfc, hle⟩ := canAssign_true_hours hcan
  have ha : a = { employee := e, shift := shift, station := station } := by
    unfold createAssignment at hcreate
    rw [hfc] at hcreate
    simp only [Option.map_some', Option.some.injEq] at hcreate
    exact hcreate.symm
  subst ha
  have hdate : shift.date = d := fromCode_date hfc
  constructor
  · intro e' he' w
    show (if e'.id = e.id ∧ w = weekNumber st.schedule.start_date d
        then st.employee_hours e'.id w + shift.hours
        else st.employee_hours e'.id w) ≤ e'.weekly_hours_target.2
    by_cases hc : e'.id = e.id ∧ w = weekNumber st.schedule.start_date d
    · rw [if_pos hc]
      obtain rfl := hinj e' he' e hmem hc.1
      rw [hc.2]
      exact hle
    · rw [if_neg hc]
      exact hbound e' he' w
  · intro i w
    show (if i = e.id ∧ w = weekNumber st.schedule.start_date d
        then st.employee_hours i w + shift.hours
        else st.employee_hours i w)
      = (st.schedule.addAssignment
          { employee := e, shift := shift, station := station }).weekHours i w
    rw [weekHours_addAssignment]
    by_cases hc : i = e.id ∧ w = weekNumber st.schedule.start_date d
    · rw [if_pos hc, if_pos ⟨hc.1.symm, by rw [hdate]; exact hc.2.symm⟩, htrack]
    · rw [if_neg hc, if_neg ?_, htrack, add_zero]
      intro hc2
      exact hc ⟨hc2.1.symm, by rw [← hc2.2, hdate]⟩


theorem fillSlot_inv {emps : List Employee}
    (hinj : ∀ x ∈ emps, ∀ y ∈ emps, x.id = y.id → x = y)
    (d : Date) (code : String) (station : Station) (req : Nat) :
    ∀ (cands : List Employee) (st : MatcherState) (filled : Nat),
      (∀ e ∈ cands, e ∈ emps) → HoursInv emps st →
      HoursInv emps (fillSlot d code station req cands st filled) := by
  intro cands
  induction cands with
  | nil =>
      intro st filled _ hinv
      exact hinv
  | cons e rest ih =>
      intro st filled hsub hinv
      have hsubrest : ∀ x ∈ rest, x ∈ emps := fun x hx => hsub x (List.mem_cons_of_mem e hx)
      by_cases h1 : req ≤ filled
      · simp only [fillSlot, if_pos h1]
        exact hinv
      · by_cases h2 : canAssign st e d code = true
        · rcases hc : createAssignment e d code station with _ | a
          · simp only [fillSlot, if_neg h1, if_pos h2, hc]
            exact ih st filled hsubrest hinv
          · simp only [fillSlot, if_neg h1, if_pos h2, hc]
            exact ih _ _ hsubrest
              (fill_step_inv hinj (hsub e (List.mem_cons_self e rest)) hinv h2 hc)
        · simp only [fillSlot, if_neg h1, if_neg h2]
          exact ih st filled hsubrest hinv

theorem rankedCandidates_subset {emps : List Employee} {st : MatcherState} {d : Date}
    {code : String} {station : Station} {jitter : Employee → Date → String → Station → ℚ}
    {e : Employee} (h : e ∈ rankedCandidates emps st d code station jitter) : e ∈ emps := by
  unfold rankedCandidates at h
  simp only [List.mem_map] at h
  obtain ⟨p, hp, rfl⟩ := h
  rw [List.Perm.mem_iff (insertionSortBy_perm _ _)] at hp
  simp only [List.mem_map, List.mem_filter] at hp
  obtain ⟨e1, ⟨he1, -⟩, hpe⟩ := hp
  rw [← hpe]
  exact he1

theorem foldl_inv {σ β : Type} (P : σ → Prop) (f : σ → β → σ)
    (hf : ∀ s b, P s → P (f s b)) :
    ∀ (l : List β) (s : σ), P s → P (l.foldl f s) := by
  intro l
  induction l with
  | nil =>
      intro s h
      exact h
  | cons b t ih =>
      intro s h
      exact ih _ (hf s b h)

theorem matchDay_inv {emps : List Employee}
    (hinj : ∀ x ∈ emps, ∀ y ∈ emps, x.id = y.id → x = y)
    (store : Store) (forecast : Date → String → Station → Nat)
    (jitter : Employee → Date → String → Station → ℚ)
    (st : MatcherState) (d : Date) (hinv : HoursInv emps st) :
    HoursInv emps (matchDay emps store forecast jitter st d) := by
  unfold matchDay
  refine foldl_inv (HoursInv emps) _ ?_ _ _ hinv
  intro st1 code h1
  refine foldl_inv (HoursInv emps) _ ?_ _ _ h1
  intro st2 station h2
  by_cases hreq : 0 < forecast d code station
  · simp only [if_pos hreq]
    unfold fillStationShift
    refine fillSlot_inv hinj d code station _ _ _ _ ?_ h2
    intro x hx
    exact rankedCandidates_subset hx
  · simp only [if_neg hreq]
    exact h2

theorem executeMatcher_inv {emps : List Employee} (store : Store)
    (forecast : Date → String → Station → Nat) (startDate endDate : Date)
    (jitter : Employee → Date → String → Station → ℚ)
    (hinj : ∀ x ∈ emps, ∀ y ∈ emps, x.id = y.id → x = y)
    (hmax : ∀ e ∈ emps, 0 ≤ e.weekly_hours_target.2) :
    HoursInv emps (executeMatcher emps store forecast startDate endDate jitter) := by
  unfold executeMatcher
  refine foldl_inv (HoursInv emps) _ ?_ _ _ ?_
  · intro st d h
    exact matchDay_inv hinj store forecast jitter st d h
  · constructor
    · intro e he w
      exact hmax e he
    · intro i w
      rfl

/-- C10: the schedule built by the staff matcher's auction keeps every
employee's total shift hours in every week of the period at or below
their weekly maximum (ids assumed distinct and maxima nonnegative, as the
loader guarantees), and the `_can_assign` feasibility gate — with
availability, the no-double-booking check and the rest rule passing —
accepts exactly when the new total is at most the maximum: hitting the
maximum exactly is permitted, only a strict excess is rejected. -/
theorem C10_weekly_hours_cap (emps : List Employee) (store : Store)
    (forecast : Date → String → Station → Nat) (startDate endDate : Date)
    (jitter : Employee → Date → String → Station → ℚ)
    (hnodup : (emps.map Employee.id).Nodup)
    (hmax : ∀ e ∈ emps, 0 ≤ e.weekly_hours_target.2) :
    (∀ e ∈ emps, ∀ w : Int,
      (executeMatcher emps store forecast startDate endDate jitter).schedule.weekHours e.id w
        ≤ e.weekly_hours_target.2) ∧
    (∀ (st : MatcherState) (e : Employee) (d : Date) (code : String) (shift : Shift),
      Shift.fromCode code d = some shift →
      e.isAvailable d code = true →
      st.schedule.isEmployeeAssigned e.id d = false →
      checkRestPeriod st.schedule e shift = true →
      (canAssign st e d code = true ↔
        st.employee_hours e.id (weekNumber st.schedule.start_date d) + shift.hours
          ≤ e.weekly_hours_target.2)) := by
  constructor
  · intro e he w
    have hinv := executeMatcher_inv store forecast startDate endDate jitter
      (nodup_map_inj hnodup) hmax
    rw [← hinv.2 e.id w]
    exact hinv.1 e he w
  · intro st e d code shift hfc hav hassigned hrest
    exact canAssign_hours_gate st e d code shift hfc hav hassigned hrest

/-- Forecast fixture: one kitchen 1F slot on day 0. -/
def demoForecast : Date → String → Station → Nat :=
  fun d code station =>
    if d = 0 ∧ code = "1F" ∧ station = Station.KITCHEN then 1 else 0

/-- Store fixture matching the predefined CBD store's station flags. -/
def demoStore : Store :=
  { id := "Store_1", name := "Melbourne CBD", has_mccafe := true, has_dessert_station := true }

/-- Witness for C10 on a concrete two-employee, two-day auction run with
zero jitter, read at the Full-Time employee's first week. -/
theorem C10_weekly_hours_cap_witness :
    (executeMatcher [empFT, empPT] demoStore demoForecast 0 1
      (fun _ _ _ _ => 0)).schedule.weekHours empFT.id 0 ≤ empFT.weekly_hours_target.2 :=
  (C10_weekly_hours_cap [empFT, empPT] demoStore demoForecast 0 1 (fun _ _ _ _ => 0)
    (by decide) (by decide)).1 empFT (by decide) 0

end MAS
